import Mathlib

/-!
Shallow embedding of `dynamic_buffer.h` (reference-counted byte buffer
library).  A buffer handle (`db_buffer` = `char*` in the source) points at
the data region of a heap block whose header records `refcount`, `size`
and `capacity`.  We model the handle together with its header as a record:
`data` is the allocated storage (one `Nat` per byte, values kept below 256
by the write operations; freshly malloc'ed bytes are modelled as 0),
`data.length` corresponds to the allocated capacity.  `size_t` arithmetic
is modelled on `Nat` (no overflow); allocation is modelled as always
succeeding, matching the `DB_ASSERT(raw_memory)` in the source.
Fallible operations that update `*buf_ptr` are modelled as returning a
`Bool × db_buffer` pair; functions returning `NULL` return `Option`.
-/

structure db_buffer where
  refcount : Nat
  size : Nat
  capacity : Nat
  data : List Nat
deriving DecidableEq, Repr

/-- The valid bytes of a buffer: the first `size` bytes of its storage. -/
def db_contents (b : db_buffer) : List Nat := b.data.take b.size

/-- Well-formedness of a buffer as allocated by the library:
`size <= capacity` and the storage really has `capacity` bytes. -/
def db_wf (b : db_buffer) : Prop :=
  b.size ≤ b.capacity ∧ b.data.length = b.capacity

instance : DecidablePred db_wf := fun b => by unfold db_wf; infer_instance

/-- Well-formedness of a possibly-NULL buffer handle. -/
def dbo_wf : Option db_buffer → Prop
  | none => True
  | some b => db_wf b

instance : DecidablePred dbo_wf := fun o => by
  cases o <;> unfold dbo_wf <;> infer_instance

/-- Model of `db_internal_create`: allocate `capacity` bytes, `size = 0`,
`refcount = 1`.  Uninitialized malloc'ed memory is modelled as zeros. -/
def db_internal_create (capacity : Nat) : db_buffer :=
  { refcount := 1, size := 0, capacity := capacity,
    data := List.replicate capacity 0 }

def db_new (capacity : Nat) : db_buffer := db_internal_create capacity

/-- Model of `db_new_with_data`: create with capacity `size` and copy the bytes in
(`memcpy` fills the whole storage, then `size` is set). -/
def db_new_with_data (d : List Nat) : db_buffer :=
  { refcount := 1, size := d.length, capacity := d.length, data := d }

/-- Model of `db_retain`: increment the reference count. -/
def db_retain (b : db_buffer) : db_buffer :=
  { b with refcount := b.refcount + 1 }

/-- Model of `db_slice`: bounds check, then copy `length` bytes starting at
`offset` into a fresh buffer of capacity `length`. -/
def db_slice (buf : db_buffer) (offset length : Nat) : Option db_buffer :=
  if offset > buf.size ∨ offset + length > buf.size then
    none
  else
    some { refcount := 1, size := length, capacity := length,
           data := (buf.data.drop offset).take length }

/-- Model of `db_resize`: fails on a shared buffer; within capacity only the size
field changes; otherwise reallocates to capacity `new_size * 2`
(`realloc` preserves the old bytes, the fresh tail is modelled as 0). -/
def db_resize (buf : db_buffer) (new_size : Nat) : Bool × db_buffer :=
  if buf.refcount > 1 then
    (false, buf)
  else if new_size ≤ buf.capacity then
    (true, { buf with size := new_size })
  else
    let new_capacity := new_size * 2
    (true, { buf with
             size := new_size,
             capacity := new_capacity,
             data := buf.data ++ List.replicate (new_capacity - buf.data.length) 0 })

/-- Model of `db_reserve`: no-op success when the capacity already suffices (this
check precedes the shared-buffer guard in the source); fails on a shared
buffer; otherwise grows capacity to exactly `min_capacity`. -/
def db_reserve (buf : db_buffer) (min_capacity : Nat) : Bool × db_buffer :=
  if min_capacity ≤ buf.capacity then
    (true, buf)
  else if buf.refcount > 1 then
    (false, buf)
  else
    (true, { buf with
             capacity := min_capacity,
             data := buf.data ++ List.replicate (min_capacity - buf.data.length) 0 })

/-- Model of `memcpy(dst + pos, src, n)` on list storage: overwrite bytes starting
at `pos` one by one (out-of-range writes are modelled as no-ops; the
library only writes in bounds when its guards succeed). -/
def storeBytes (st : List Nat) (pos : Nat) : List Nat → List Nat
  | [] => st
  | b :: rest => storeBytes (st.set pos b) (pos + 1) rest

/-- Model of `db_append`: no-op success for `size == 0`; fails on a shared buffer;
reserves room for `old_size + size` when needed, copies, updates size. -/
def db_append (buf : db_buffer) (d : List Nat) : Bool × db_buffer :=
  if d.length = 0 then
    (true, buf)
  else if buf.refcount > 1 then
    (false, buf)
  else
    let old_size := buf.size
    let step :=
      if old_size + d.length > buf.capacity then db_reserve buf (old_size + d.length)
      else (true, buf)
    if step.1 = false then
      (false, buf)
    else
      (true, { step.2 with
               size := old_size + d.length,
               data := storeBytes step.2.data old_size d })

/-- Model of `db_clear`: fails on a shared buffer, otherwise sets `size = 0`. -/
def db_clear (buf : db_buffer) : Bool × db_buffer :=
  if buf.refcount > 1 then (false, buf)
  else (true, { buf with size := 0 })

/-- Model of `db_concat`: a NULL operand counts as zero-length; allocate the sum
of the sizes and copy both byte ranges in order. -/
def db_concat (buf1 buf2 : Option db_buffer) : db_buffer :=
  let c1 := match buf1 with | none => [] | some b => db_contents b
  let c2 := match buf2 with | none => [] | some b => db_contents b
  { refcount := 1, size := c1.length + c2.length,
    capacity := c1.length + c2.length, data := c1 ++ c2 }

/-- Model of `db_equals`: NULL equals only NULL; otherwise sizes must match, then
`memcmp` over the first `size` bytes. -/
def db_equals : Option db_buffer → Option db_buffer → Bool
  | none, none => true
  | none, some _ => false
  | some _, none => false
  | some b1, some b2 =>
    if b1.size = b2.size then decide (db_contents b1 = db_contents b2)
    else false

/-- The sign of `memcmp` over two equal-length byte runs (the source only
uses the sign of the returned value; we normalise it to -1/0/1). -/
def memcmpSign : List Nat → List Nat → Int
  | x :: xs, y :: ys =>
    if x < y then -1 else if y < x then 1 else memcmpSign xs ys
  | _, _ => 0

/-- Model of `db_compare`: NULL orders before any present buffer; otherwise
`memcmp` over the common prefix, ties broken by the shorter size. -/
def db_compare : Option db_buffer → Option db_buffer → Int
  | none, none => 0
  | none, some _ => -1
  | some _, none => 1
  | some b1, some b2 =>
    let size1 := b1.size
    let size2 := b2.size
    let min_size := if size1 < size2 then size1 else size2
    let result := memcmpSign (b1.data.take min_size) (b2.data.take min_size)
    if result ≠ 0 then result
    else if size1 < size2 then -1
    else if size1 > size2 then 1
    else 0

/-- Character code of `"0123456789abcdef"[n]` (resp. the uppercase
table) for `n < 16`. -/
def hexDigit (uppercase : Bool) (n : Nat) : Nat :=
  if n < 10 then 48 + n
  else if uppercase then 65 + (n - 10)
  else 97 + (n - 10)

/-- The hex expansion loop of `db_to_hex`: byte `b` becomes the digit of
`b >> 4` (= `b / 16`) followed by the digit of `b & 0x0F` (= `b % 16`). -/
def hexBytes (uppercase : Bool) : List Nat → List Nat
  | [] => []
  | b :: rest =>
    hexDigit uppercase (b / 16) :: hexDigit uppercase (b % 16) :: hexBytes uppercase rest

/-- Model of `db_to_hex`: empty buffer yields an empty buffer; otherwise a buffer
of size and capacity `2 * size` holding the hex digits of the contents. -/
def db_to_hex (buf : db_buffer) (uppercase : Bool) : db_buffer :=
  if buf.size = 0 then db_new_with_data []
  else
    { refcount := 1, size := 2 * buf.size, capacity := 2 * buf.size,
      data := hexBytes uppercase (db_contents buf) }

/-- Model of `hex_char_to_value`: digit value of an ASCII hex character, `none`
for the source's -1. -/
def hex_char_to_value (c : Nat) : Option Nat :=
  if 48 ≤ c ∧ c ≤ 57 then some (c - 48)
  else if 65 ≤ c ∧ c ≤ 70 then some (c - 65 + 10)
  else if 97 ≤ c ∧ c ≤ 102 then some (c - 97 + 10)
  else none

/-- The decode loop of `db_from_hex`: each pair of hex characters becomes
the byte `(high << 4) | low` = `16 * high + low` (`low < 16`); any
invalid character aborts the whole decode. -/
def decodeHexPairs : List Nat → Option (List Nat)
  | [] => some []
  | h :: l :: rest =>
    match hex_char_to_value h, hex_char_to_value l with
    | some hi, some lo =>
      match decodeHexPairs rest with
      | some bs => some ((16 * hi + lo) :: bs)
      | none => none
    | _, _ => none
  | [_] => none

/-- Model of `db_from_hex`: reject odd length or invalid characters with NULL;
otherwise a buffer of exactly the decoded bytes. -/
def db_from_hex (hex_string : List Nat) : Option db_buffer :=
  if hex_string.length % 2 ≠ 0 then none
  else
    match decodeHexPairs hex_string with
    | some bytes =>
      some { refcount := 1, size := bytes.length, capacity := bytes.length,
             data := bytes }
    | none => none

/-- Builder state: the buffer reached through `buf_ptr` plus the write
cursor (`owns_buf_ptr` only controls deallocation and is omitted). -/
structure db_builder_internal where
  buf : db_buffer
  position : Nat
deriving DecidableEq, Repr

def db_builder_new (initial_capacity : Nat) : db_builder_internal :=
  { buf := db_new initial_capacity, position := 0 }

def db_builder_from_buffer (buf : db_buffer) : db_builder_internal :=
  { buf := buf, position := buf.size }

/-- Model of `db_builder_finish`: hands back the underlying buffer. -/
def db_builder_finish (b : db_builder_internal) : db_buffer := b.buf

/-- Model of `db_builder_ensure_space`: grow via `db_reserve` when
`position + bytes` exceeds the capacity (the source ignores the result of
`db_reserve`), then extend `size` to `position + bytes` whenever that
exceeds the current size. -/
def db_builder_ensure_space (b : db_builder_internal) (bytes : Nat) : db_builder_internal :=
  let needed_size := b.position + bytes
  let buf1 :=
    if needed_size > b.buf.capacity then (db_reserve b.buf needed_size).2
    else b.buf
  let buf2 :=
    if needed_size > buf1.size then { buf1 with size := needed_size }
    else buf1
  { buf := buf2, position := b.position }

def db_write_uint8 (b : db_builder_internal) (value : Nat) : db_builder_internal :=
  let b1 := db_builder_ensure_space b 1
  { buf := { b1.buf with data := b1.buf.data.set b1.position (value % 256) },
    position := b1.position + 1 }

def db_write_uint16_le (b : db_builder_internal) (value : Nat) : db_builder_internal :=
  let b1 := db_builder_ensure_space b 2
  let st := (b1.buf.data.set b1.position (value % 256)).set
    (b1.position + 1) ((value >>> 8) % 256)
  { buf := { b1.buf with data := st }, position := b1.position + 2 }

def db_write_uint16_be (b : db_builder_internal) (value : Nat) : db_builder_internal :=
  let b1 := db_builder_ensure_space b 2
  let st := (b1.buf.data.set b1.position ((value >>> 8) % 256)).set
    (b1.position + 1) (value % 256)
  { buf := { b1.buf with data := st }, position := b1.position + 2 }

def db_write_uint32_le (b : db_builder_internal) (value : Nat) : db_builder_internal :=
  let b1 := db_builder_ensure_space b 4
  let st := (((b1.buf.data.set b1.position (value % 256)).set
    (b1.position + 1) ((value >>> 8) % 256)).set
    (b1.position + 2) ((value >>> 16) % 256)).set
    (b1.position + 3) ((value >>> 24) % 256)
  { buf := { b1.buf with data := st }, position := b1.position + 4 }

def db_write_uint32_be (b : db_builder_internal) (value : Nat) : db_builder_internal :=
  let b1 := db_builder_ensure_space b 4
  let st := (((b1.buf.data.set b1.position ((value >>> 24) % 256)).set
    (b1.position + 1) ((value >>> 16) % 256)).set
    (b1.position + 2) ((value >>> 8) % 256)).set
    (b1.position + 3) (value % 256)
  { buf := { b1.buf with data := st }, position := b1.position + 4 }

def db_write_bytes (b : db_builder_internal) (d : List Nat) : db_builder_internal :=
  if d.length = 0 then b
  else
    let b1 := db_builder_ensure_space b d.length
    { buf := { b1.buf with data := storeBytes b1.buf.data b1.position d },
      position := b1.position + d.length }

/-- Model of `db_write_cstring`: writes the bytes of the string (no terminator);
the argument is the byte list of the C string. -/
def db_write_cstring (b : db_builder_internal) (s : List Nat) : db_builder_internal :=
  db_write_bytes b s

/-- Reader state: the buffer (retained on creation) plus the read cursor. -/
structure db_reader_internal where
  buf : db_buffer
  position : Nat
deriving DecidableEq, Repr

def db_reader_new (buf : db_buffer) : db_reader_internal :=
  { buf := db_retain buf, position := 0 }

def db_reader_position (r : db_reader_internal) : Nat := r.position

def db_reader_remaining (r : db_reader_internal) : Nat :=
  if r.position < r.buf.size then r.buf.size - r.position else 0

def db_reader_can_read (r : db_reader_internal) (bytes : Nat) : Bool :=
  decide (bytes ≤ db_reader_remaining r)

/-- Byte fetched at index `i` of the reader's storage
(in-bounds under the reader's `can_read` contract). -/
def byteAt (b : db_buffer) (i : Nat) : Nat := b.data.getD i 0

def db_read_uint8 (r : db_reader_internal) : Nat × db_reader_internal :=
  (byteAt r.buf r.position, { r with position := r.position + 1 })

def db_read_uint16_le (r : db_reader_internal) : Nat × db_reader_internal :=
  (byteAt r.buf r.position ||| (byteAt r.buf (r.position + 1) <<< 8),
   { r with position := r.position + 2 })

def db_read_uint16_be (r : db_reader_internal) : Nat × db_reader_internal :=
  ((byteAt r.buf r.position <<< 8) ||| byteAt r.buf (r.position + 1),
   { r with position := r.position + 2 })

def db_read_uint32_le (r : db_reader_internal) : Nat × db_reader_internal :=
  (byteAt r.buf r.position ||| (byteAt r.buf (r.position + 1) <<< 8) |||
    (byteAt r.buf (r.position + 2) <<< 16) ||| (byteAt r.buf (r.position + 3) <<< 24),
   { r with position := r.position + 4 })

def db_read_uint32_be (r : db_reader_internal) : Nat × db_reader_internal :=
  ((byteAt r.buf r.position <<< 24) ||| (byteAt r.buf (r.position + 1) <<< 16) |||
    (byteAt r.buf (r.position + 2) <<< 8) ||| byteAt r.buf (r.position + 3),
   { r with position := r.position + 4 })

def db_read_bytes (r : db_reader_internal) (size : Nat) : List Nat × db_reader_internal :=
  if size = 0 then ([], r)
  else ((r.buf.data.drop r.position).take size,
        { r with position := r.position + size })

/-- Byte-lexicographic comparison of two byte lists with the
shorter-is-less tie break (the order the spec describes). -/
def lexCmp : List Nat → List Nat → Int
  | [], [] => 0
  | [], _ :: _ => -1
  | _ :: _, [] => 1
  | x :: xs, y :: ys =>
    if x < y then -1 else if y < x then 1 else lexCmp xs ys

/-! ## Theorems -/

/-- C1: for every buffer with refcount equal to 2, each of `db_resize`,
`db_append` (with nonzero size) and `db_clear` returns false and leaves
the buffer (size, capacity and byte contents) unchanged. -/
theorem C1_mutation_guard (buf : db_buffer) (new_size : Nat) (d : List Nat)
    (h : buf.refcount = 2) (hd : d.length ≠ 0) :
    db_resize buf new_size = (false, buf) ∧
    db_append buf d = (false, buf) ∧
    db_clear buf = (false, buf) := by
  refine ⟨?_, ?_, ?_⟩
  · simp [db_resize, h]
  · simp [db_append, h, hd]
  · simp [db_clear, h]

theorem C1_mutation_guard_witness :
    db_resize ⟨2, 1, 2, [7, 0]⟩ 5 = (false, ⟨2, 1, 2, [7, 0]⟩) ∧
    db_append ⟨2, 1, 2, [7, 0]⟩ [9] = (false, ⟨2, 1, 2, [7, 0]⟩) ∧
    db_clear ⟨2, 1, 2, [7, 0]⟩ = (false, ⟨2, 1, 2, [7, 0]⟩) :=
  C1_mutation_guard ⟨2, 1, 2, [7, 0]⟩ 5 [9] (by decide) (by decide)

/-- C9: `db_append` with an empty byte run succeeds and leaves the buffer
unchanged, for every buffer (regardless of its refcount). -/
theorem C9_append_empty (buf : db_buffer) : db_append buf [] = (true, buf) := by
  simp [db_append]

/-- C5 counterexample: a buffer retained twice (refcount 2) for which
`db_reserve` nevertheless returns true (the capacity check precedes the
shared-buffer guard in the source), refuting the claim that `db_reserve`
fails on every shared buffer for every requested capacity. -/
theorem C5_counterexample :
    (2 : Nat) > 1 ∧
    db_reserve ⟨2, 0, 4, [0, 0, 0, 0]⟩ 0 = (true, ⟨2, 0, 4, [0, 0, 0, 0]⟩) := by
  decide

/-- C5 (amended): for every buffer with refcount greater than 1,
`db_reserve` returns false (leaving the buffer unchanged) for every
requested `min_capacity` strictly greater than the current capacity. -/
theorem C5_reserve_guard (buf : db_buffer) (min_capacity : Nat)
    (h1 : buf.refcount > 1) (h2 : min_capacity > buf.capacity) :
    db_reserve buf min_capacity = (false, buf) := by
  simp [db_reserve, h1]
  omega

theorem C5_reserve_guard_witness :
    db_reserve ⟨2, 0, 0, []⟩ 5 = (false, ⟨2, 0, 0, []⟩) :=
  C5_reserve_guard ⟨2, 0, 0, []⟩ 5 (by decide) (by decide)

/-- C10: the claim that every operation preserves `size ≤ capacity` is
right, but the code violates it: `db_builder_ensure_space` ignores the
result of `db_reserve`, so a builder write on a buffer that is shared
(refcount 2) and needs to grow sets `size` past `capacity` (and, in the
C source, writes past the allocation).  Evaluated at the failing input:
a builder over a shared empty buffer, one `db_write_uint8`. -/
theorem C10_invariant_violation :
    (db_write_uint8 (db_builder_from_buffer ⟨2, 0, 0, []⟩) 0x42).buf.size = 1 ∧
    (db_write_uint8 (db_builder_from_buffer ⟨2, 0, 0, []⟩) 0x42).buf.capacity = 0 := by
  decide

/-- C8: writing `u16_le(0x1234)` then `u16_be(0x1234)` through a fresh
builder produces the byte sequence `34 12 12 34`. -/
theorem C8_endianness :
    db_contents (db_builder_finish
      (db_write_uint16_be (db_write_uint16_le (db_builder_new 0) 0x1234) 0x1234)) =
    [0x34, 0x12, 0x12, 0x34] := by
  decide

/-- C3: writing `u8(0x42)`, `u16_le(0x1234)`, `u32_be(0x12345678)`, then
`cstring("Test")` through a fresh builder, finishing, and reading back in
the same order and endianness yields exactly those values, with
`remaining() = 0` afterwards. -/
theorem C3_builder_reader_roundtrip :
    (db_read_uint8 (db_reader_new (db_builder_finish (db_write_cstring
      (db_write_uint32_be (db_write_uint16_le (db_write_uint8 (db_builder_new 0)
        0x42) 0x1234) 0x12345678) [0x54, 0x65, 0x73, 0x74])))).1 = 0x42 ∧
    (db_read_uint16_le (db_read_uint8 (db_reader_new (db_builder_finish
      (db_write_cstring (db_write_uint32_be (db_write_uint16_le (db_write_uint8
        (db_builder_new 0) 0x42) 0x1234) 0x12345678)
        [0x54, 0x65, 0x73, 0x74])))).2).1 = 0x1234 ∧
    (db_read_uint32_be (db_read_uint16_le (db_read_uint8 (db_reader_new
      (db_builder_finish (db_write_cstring (db_write_uint32_be
        (db_write_uint16_le (db_write_uint8 (db_builder_new 0) 0x42) 0x1234)
        0x12345678) [0x54, 0x65, 0x73, 0x74])))).2).2).1 = 0x12345678 ∧
    (db_read_bytes (db_read_uint32_be (db_read_uint16_le (db_read_uint8
      (db_reader_new (db_builder_finish (db_write_cstring (db_write_uint32_be
        (db_write_uint16_le (db_write_uint8 (db_builder_new 0) 0x42) 0x1234)
        0x12345678) [0x54, 0x65, 0x73, 0x74])))).2).2).2 4).1 =
      [0x54, 0x65, 0x73, 0x74] ∧
    db_reader_remaining (db_read_bytes (db_read_uint32_be (db_read_uint16_le
      (db_read_uint8 (db_reader_new (db_builder_finish (db_write_cstring
        (db_write_uint32_be (db_write_uint16_le (db_write_uint8 (db_builder_new 0)
          0x42) 0x1234) 0x12345678) [0x54, 0x65, 0x73, 0x74])))).2).2).2 4).2 = 0 := by
  decide

/-- C2: `db_slice` returns NULL exactly when `offset > size` or
`offset + length > size`; for valid bounds the slice has size `length`
and its bytes are the source bytes at positions `offset` through
`offset + length`. -/
theorem C2_slice_bounds (buf : db_buffer) (offset length : Nat)
    (hwf : db_wf buf) :
    (offset > buf.size ∨ offset + length > buf.size →
      db_slice buf offset length = none) ∧
    (offset + length ≤ buf.size →
      ∃ s, db_slice buf offset length = some s ∧ s.size = length ∧
        db_contents s = ((db_contents buf).drop offset).take length) := by
  obtain ⟨hsc, hlen⟩ := hwf
  constructor
  · intro h
    simp only [db_slice, if_pos h]
  · intro h
    have hcond : ¬(offset > buf.size ∨ offset + length > buf.size) := by omega
    refine ⟨⟨1, length, length, (buf.data.drop offset).take length⟩,
      by simp only [db_slice, if_neg hcond], rfl, ?_⟩
    show ((buf.data.drop offset).take length).take length =
      ((buf.data.take buf.size).drop offset).take length
    rw [List.take_take, List.drop_take]
    rw [List.take_take]
    congr 1
    omega

theorem C2_slice_bounds_witness :
    ((2 : Nat) > 3 ∨ 2 + 2 > 3 → db_slice ⟨1, 3, 4, [5, 6, 7, 0]⟩ 2 2 = none) ∧
    (2 + 1 ≤ 3 →
      ∃ s, db_slice ⟨1, 3, 4, [5, 6, 7, 0]⟩ 2 1 = some s ∧ s.size = 1 ∧
        db_contents s =
          ((db_contents ⟨1, 3, 4, [5, 6, 7, 0]⟩).drop 2).take 1) :=
  ⟨(C2_slice_bounds ⟨1, 3, 4, [5, 6, 7, 0]⟩ 2 2 (by decide)).1,
   (C2_slice_bounds ⟨1, 3, 4, [5, 6, 7, 0]⟩ 2 1 (by decide)).2⟩

theorem storeBytes_length (d : List Nat) (st : List Nat) (pos : Nat) :
    (storeBytes st pos d).length = st.length := by
  induction d generalizing st pos with
  | nil => rfl
  | cons b rest ih => simp [storeBytes, ih]

theorem storeBytes_getElem?_lt (d : List Nat) (st : List Nat) (pos i : Nat)
    (h : i < pos) : (storeBytes st pos d)[i]? = st[i]? := by
  induction d generalizing st pos with
  | nil => rfl
  | cons b rest ih =>
    show (storeBytes (st.set pos b) (pos + 1) rest)[i]? = st[i]?
    rw [ih _ (pos + 1) (by omega), List.getElem?_set_ne (by omega)]

theorem storeBytes_readback (d : List Nat) (st : List Nat) (pos : Nat)
    (h : pos + d.length ≤ st.length) :
    ((storeBytes st pos d).drop pos).take d.length = d := by
  induction d generalizing st pos with
  | nil => simp
  | cons b rest ih =>
    show ((storeBytes (st.set pos b) (pos + 1) rest).drop pos).take
      (rest.length + 1) = b :: rest
    have hlen : (storeBytes (st.set pos b) (pos + 1) rest).length = st.length := by
      rw [storeBytes_length]; simp
    have hpos : pos < (storeBytes (st.set pos b) (pos + 1) rest).length := by
      simp at h ⊢; omega
    rw [List.drop_eq_getElem_cons hpos, List.take_succ_cons]
    have hget : (storeBytes (st.set pos b) (pos + 1) rest)[pos]? = some b := by
      rw [storeBytes_getElem?_lt _ _ _ _ (by omega), List.getElem?_set_self]
      simp at h; omega
    congr 1
    · exact List.getElem_eq_iff.mpr hget
    · exact ih _ (pos + 1) (by simp; simp at h; omega)

theorem db_builder_ensure_space_spec (b : db_builder_internal) (bytes : Nat)
    (hwf : db_wf b.buf) (hrc : b.buf.refcount = 1) :
    (db_builder_ensure_space b bytes).position = b.position ∧
    (db_builder_ensure_space b bytes).buf.size = max b.buf.size (b.position + bytes) ∧
    b.position + bytes ≤ (db_builder_ensure_space b bytes).buf.data.length := by
  obtain ⟨h1, h2⟩ := hwf
  simp only [db_builder_ensure_space, db_reserve, hrc]
  split_ifs <;> simp_all <;> omega

/-- C4: for a builder over a well-formed exclusively-owned buffer (the
state every builder reaches through the API), a write of `n` bytes writes
the value's bytes at the current position `p`, leaves the position at
`p + n`, and leaves the buffer's size at `max size (p + n)` — so seeking
backward and overwriting never decreases the size.  Stated for
`db_write_bytes` (arbitrary `n`) and `db_write_uint8` (`n = 1`). -/
theorem C4_builder_write (b : db_builder_internal) (d : List Nat) (v : Nat)
    (hwf : db_wf b.buf) (hrc : b.buf.refcount = 1)
    (hpos : b.position ≤ b.buf.size) :
    ((db_write_bytes b d).position = b.position + d.length ∧
     (db_write_bytes b d).buf.size = max b.buf.size (b.position + d.length) ∧
     (((db_write_bytes b d).buf.data.drop b.position).take d.length = d)) ∧
    ((db_write_uint8 b v).position = b.position + 1 ∧
     (db_write_uint8 b v).buf.size = max b.buf.size (b.position + 1) ∧
     (db_write_uint8 b v).buf.data.getD b.position 0 = v % 256) := by
  constructor
  · by_cases hd : d.length = 0
    · have hnil : d = [] := List.length_eq_zero.mp hd
      subst hnil
      refine ⟨by simp [db_write_bytes], ?_, by simp [db_write_bytes]⟩
      simp only [db_write_bytes, List.length_nil, Nat.add_zero]
      simp
      omega
    · obtain ⟨hp, hs, hl⟩ := db_builder_ensure_space_spec b d.length hwf hrc
      simp only [db_write_bytes, if_neg hd]
      refine ⟨rfl, hs, ?_⟩
      exact storeBytes_readback d _ b.position hl
  · obtain ⟨hp, hs, hl⟩ := db_builder_ensure_space_spec b 1 hwf hrc
    refine ⟨rfl, hs, ?_⟩
    show ((db_builder_ensure_space b 1).buf.data.set b.position (v % 256)).getD
      b.position 0 = v % 256
    rw [List.getD_eq_getElem?_getD, List.getElem?_set_self (by omega)]
    rfl

theorem C4_builder_write_witness :
    ((db_write_bytes (db_builder_new 2) [10, 20]).position = 0 + 2 ∧
     (db_write_bytes (db_builder_new 2) [10, 20]).buf.size = max 0 (0 + 2) ∧
     (((db_write_bytes (db_builder_new 2) [10, 20]).buf.data.drop 0).take 2 =
       [10, 20])) ∧
    ((db_write_uint8 (db_builder_new 2) 300).position = 0 + 1 ∧
     (db_write_uint8 (db_builder_new 2) 300).buf.size = max 0 (0 + 1) ∧
     (db_write_uint8 (db_builder_new 2) 300).buf.data.getD 0 0 = 300 % 256) :=
  C4_builder_write (db_builder_new 2) [10, 20] 300 (by decide) (by decide) (by decide)

theorem lexCmp_eq_zero_iff (xs : List Nat) : ∀ ys, lexCmp xs ys = 0 ↔ xs = ys := by
  induction xs with
  | nil => intro ys; cases ys <;> simp [lexCmp]
  | cons x xs ih =>
    intro ys
    cases ys with
    | nil => simp [lexCmp]
    | cons y ys =>
      simp only [lexCmp]
      split_ifs with h1 h2
      · simp; omega
      · simp; omega
      · have hxy : x = y := by omega
        simp [hxy, ih]

theorem lexCmp_neg_swap (xs : List Nat) : ∀ ys, lexCmp ys xs = - lexCmp xs ys := by
  induction xs with
  | nil => intro ys; cases ys <;> simp [lexCmp]
  | cons x xs ih =>
    intro ys
    cases ys with
    | nil => simp [lexCmp]
    | cons y ys =>
      simp only [lexCmp]
      split_ifs <;> first | omega | exact ih ys

theorem lexCmp_trans_neg (xs : List Nat) : ∀ ys zs, lexCmp xs ys = -1 →
    lexCmp ys zs = -1 → lexCmp xs zs = -1 := by
  induction xs with
  | nil =>
    intro ys zs h1 h2
    cases ys with
    | nil => simp [lexCmp] at h1
    | cons y ys =>
      cases zs with
      | nil => simp [lexCmp] at h2
      | cons z zs => rfl
  | cons x xs ih =>
    intro ys zs h1 h2
    cases ys with
    | nil => simp [lexCmp] at h1
    | cons y ys =>
      cases zs with
      | nil => simp [lexCmp] at h2
      | cons z zs =>
        simp only [lexCmp] at h1 h2 ⊢
        split_ifs at h1 h2 ⊢ <;> first | rfl | omega | exact ih ys zs h1 h2

theorem lexCmp_eq_memcmp (xs : List Nat) : ∀ ys : List Nat,
    lexCmp xs ys =
      (if memcmpSign
            (xs.take (if xs.length < ys.length then xs.length else ys.length))
            (ys.take (if xs.length < ys.length then xs.length else ys.length)) ≠ 0
       then memcmpSign
            (xs.take (if xs.length < ys.length then xs.length else ys.length))
            (ys.take (if xs.length < ys.length then xs.length else ys.length))
       else if xs.length < ys.length then -1
       else if ys.length < xs.length then 1
       else 0) := by
  induction xs with
  | nil => intro ys; cases ys <;> simp [lexCmp, memcmpSign]
  | cons x xs ih =>
    intro ys
    cases ys with
    | nil => simp [lexCmp, memcmpSign]
    | cons y ys =>
      have hm : (if (x :: xs).length < (y :: ys).length
            then (x :: xs).length else (y :: ys).length)
          = (if xs.length < ys.length then xs.length else ys.length) + 1 := by
        simp only [List.length_cons]
        split_ifs <;> omega
      rw [hm]
      simp only [lexCmp, List.take_succ_cons, memcmpSign, List.length_cons]
      rcases Nat.lt_trichotomy x y with h | h | h
      · simp [h]
      · subst h
        simp only [lt_self_iff_false, if_false]
        rw [ih ys]
        simp only [Nat.add_lt_add_iff_right]
      · have h' : ¬ x < y := by omega
        simp [h, h']

theorem db_compare_some_eq_lexCmp (x y : db_buffer) (hx : db_wf x) (hy : db_wf y) :
    db_compare (some x) (some y) = lexCmp (db_contents x) (db_contents y) := by
  obtain ⟨hx1, hx2⟩ := hx
  obtain ⟨hy1, hy2⟩ := hy
  have hlx : (db_contents x).length = x.size := by
    simp only [db_contents, List.length_take]
    omega
  have hly : (db_contents y).length = y.size := by
    simp only [db_contents, List.length_take]
    omega
  rw [lexCmp_eq_memcmp, hlx, hly]
  have htx : (db_contents x).take (if x.size < y.size then x.size else y.size)
      = x.data.take (if x.size < y.size then x.size else y.size) := by
    simp only [db_contents, List.take_take]
    congr 1
    split_ifs <;> omega
  have hty : (db_contents y).take (if x.size < y.size then x.size else y.size)
      = y.data.take (if x.size < y.size then x.size else y.size) := by
    simp only [db_contents, List.take_take]
    congr 1
    split_ifs <;> omega
  rw [htx, hty]
  rfl

/-- C6: `db_compare` is a total order consistent with `db_equals`:
`compare = 0` implies `equals`; the sign of `compare(a,b)` is the
negation of the sign of `compare(b,a)`; `compare` is transitive under the
byte-lexicographic order with shorter-prefix-is-less tie-break; a NULL
operand orders before any present buffer and two NULLs compare equal. -/
theorem C6_compare_total_order (a b c : Option db_buffer) (x : db_buffer)
    (ha : dbo_wf a) (hb : dbo_wf b) (hc : dbo_wf c) :
    (db_compare a b = 0 → db_equals a b = true) ∧
    (db_compare a b = - db_compare b a) ∧
    (db_compare a b = -1 → db_compare b c = -1 → db_compare a c = -1) ∧
    db_compare none (some x) = -1 ∧
    db_compare (some x) none = 1 ∧
    db_compare (none : Option db_buffer) none = 0 := by
  refine ⟨?_, ?_, ?_, rfl, rfl, rfl⟩
  · cases a with
    | none =>
      cases b with
      | none => intro _; rfl
      | some y => intro h; simp only [db_compare] at h; omega
    | some x' =>
      cases b with
      | none => intro h; simp only [db_compare] at h; omega
      | some y =>
        intro h
        rw [db_compare_some_eq_lexCmp x' y ha hb] at h
        have hcc : db_contents x' = db_contents y := (lexCmp_eq_zero_iff _ _).mp h
        obtain ⟨h1, h2⟩ := ha
        obtain ⟨h3, h4⟩ := hb
        have hsz : x'.size = y.size := by
          have hl := congrArg List.length hcc
          simp only [db_contents, List.length_take] at hl
          omega
        simp [db_equals, hsz, hcc]
  · cases a with
    | none =>
      cases b with
      | none => rfl
      | some y => rfl
    | some x' =>
      cases b with
      | none => rfl
      | some y =>
        rw [db_compare_some_eq_lexCmp x' y ha hb,
          db_compare_some_eq_lexCmp y x' hb ha,
          lexCmp_neg_swap (db_contents x') (db_contents y), neg_neg]
  · intro h1 h2
    cases a with
    | none =>
      cases c with
      | none =>
        cases b with
        | none => simp only [db_compare] at h1; omega
        | some yb => simp only [db_compare] at h2; omega
      | some zc => rfl
    | some xa =>
      cases b with
      | none => simp only [db_compare] at h1; omega
      | some yb =>
        cases c with
        | none => simp only [db_compare] at h2; omega
        | some zc =>
          rw [db_compare_some_eq_lexCmp xa yb ha hb] at h1
          rw [db_compare_some_eq_lexCmp yb zc hb hc] at h2
          rw [db_compare_some_eq_lexCmp xa zc ha hc]
          exact lexCmp_trans_neg _ _ _ h1 h2

theorem C6_compare_total_order_witness :
    (db_compare (some ⟨1, 1, 1, [2]⟩) none = 0 →
      db_equals (some ⟨1, 1, 1, [2]⟩) none = true) ∧
    (db_compare (some ⟨1, 1, 1, [2]⟩) none =
      - db_compare none (some ⟨1, 1, 1, [2]⟩)) ∧
    (db_compare (some ⟨1, 1, 1, [2]⟩) none = -1 →
      db_compare none (some ⟨1, 2, 2, [3, 4]⟩) = -1 →
      db_compare (some ⟨1, 1, 1, [2]⟩) (some ⟨1, 2, 2, [3, 4]⟩) = -1) ∧
    db_compare none (some ⟨1, 0, 0, []⟩) = -1 ∧
    db_compare (some ⟨1, 0, 0, []⟩) none = 1 ∧
    db_compare (none : Option db_buffer) none = 0 :=
  C6_compare_total_order (some ⟨1, 1, 1, [2]⟩) none (some ⟨1, 2, 2, [3, 4]⟩)
    ⟨1, 0, 0, []⟩ (by decide) (by decide) (by decide)

theorem hexVal_hexDigit :
    ∀ d : Nat, d < 16 → ∀ u : Bool, hex_char_to_value (hexDigit u d) = some d := by
  decide

theorem decodeHexPairs_hexBytes (l : List Nat) (u : Bool)
    (hl : ∀ v ∈ l, v < 256) : decodeHexPairs (hexBytes u l) = some l := by
  induction l with
  | nil => rfl
  | cons b rest ih =>
    have hb : b < 256 := hl b (by simp)
    have hhi : hex_char_to_value (hexDigit u (b / 16)) = some (b / 16) :=
      hexVal_hexDigit (b / 16) (by omega) u
    have hlo : hex_char_to_value (hexDigit u (b % 16)) = some (b % 16) :=
      hexVal_hexDigit (b % 16) (by omega) u
    have hrest : decodeHexPairs (hexBytes u rest) = some rest :=
      ih (fun v hv => hl v (by simp [hv]))
    show decodeHexPairs
      (hexDigit u (b / 16) :: hexDigit u (b % 16) :: hexBytes u rest) = some (b :: rest)
    rw [decodeHexPairs, hhi, hlo, hrest]
    have hbd : 16 * (b / 16) + b % 16 = b := by omega
    simp [hbd]

theorem hexBytes_length (l : List Nat) (u : Bool) :
    (hexBytes u l).length = 2 * l.length := by
  induction l with
  | nil => rfl
  | cons b rest ih => simp [hexBytes, ih]; omega

/-- C7: the hex encoding of any buffer of well-formed byte contents has
size exactly `2 * size`, and `db_from_hex` applied to that hex text
yields a buffer whose bytes equal the original bytes. -/
theorem C7_hex_roundtrip (buf : db_buffer) (uppercase : Bool)
    (hwf : db_wf buf) (hbytes : ∀ v ∈ db_contents buf, v < 256) :
    (db_to_hex buf uppercase).size = 2 * buf.size ∧
    ∃ r, db_from_hex (db_contents (db_to_hex buf uppercase)) = some r ∧
      db_contents r = db_contents buf := by
  obtain ⟨h1, h2⟩ := hwf
  have hlc : (db_contents buf).length = buf.size := by
    simp only [db_contents, List.length_take]
    omega
  by_cases hz : buf.size = 0
  · refine ⟨by simp [db_to_hex, hz, db_new_with_data], ?_⟩
    refine ⟨⟨1, 0, 0, []⟩, ?_, ?_⟩
    · simp [db_to_hex, hz, db_new_with_data, db_contents, db_from_hex, decodeHexPairs]
    · simp [db_contents, hz]
  · have hto : db_to_hex buf uppercase =
        ⟨1, 2 * buf.size, 2 * buf.size, hexBytes uppercase (db_contents buf)⟩ := by
      simp [db_to_hex, hz]
    refine ⟨by rw [hto], ?_⟩
    have hctox : db_contents (db_to_hex buf uppercase) =
        hexBytes uppercase (db_contents buf) := by
      rw [hto]
      show (hexBytes uppercase (db_contents buf)).take (2 * buf.size) =
        hexBytes uppercase (db_contents buf)
      rw [List.take_of_length_le]
      rw [hexBytes_length, hlc]
    refine ⟨⟨1, (db_contents buf).length, (db_contents buf).length, db_contents buf⟩,
      ?_, by simp [db_contents]⟩
    rw [hctox]
    simp only [db_from_hex, hexBytes_length, hlc]
    rw [decodeHexPairs_hexBytes _ _ hbytes]
    simp
    exact hlc

theorem C7_hex_roundtrip_witness :
    (db_to_hex ⟨1, 3, 4, [0xAB, 1, 255, 0]⟩ false).size = 2 * 3 ∧
    ∃ r, db_from_hex (db_contents (db_to_hex ⟨1, 3, 4, [0xAB, 1, 255, 0]⟩ false)) =
        some r ∧
      db_contents r = db_contents ⟨1, 3, 4, [0xAB, 1, 255, 0]⟩ :=
  C7_hex_roundtrip ⟨1, 3, 4, [0xAB, 1, 255, 0]⟩ false (by decide) (by decide)
